import Mathlib

/-!
Shallow embedding of `src/editor-extensions/vscode/src/extension.ts`, the
single source file of the grain-language-server repository fragment.

The extension keeps two registries (`fileClients`, `workspaceClients`)
mapping URI strings to language-client handles, a flag set `activeMutex`
guarding configuration-change handlers, and a cached sorted list of
workspace-folder directory paths.  Clients are modelled by numeric
identifiers; starting a client appends a `(key, id)` pair to a start log
and stopping a client records its id in a stop log, so liveness of a
client is expressible as "started and not stopped".  Fallible code
(`findGrain`, `getLspCommand`, the client-start functions) returns
`Except`.  JavaScript string operations used by the source
(`startsWith`, `endsWith`, `split`, array `sort` by length) are embedded
as executable functions over `String.data`.
-/

namespace GrainExtension

/-! ### JavaScript string primitives -/

/-- JS `s.startsWith(pre)`. -/
def jsStartsWith (s pre : String) : Bool :=
  pre.data.isPrefixOf s.data

/-- JS `s.endsWith(suf)`. -/
def jsEndsWith (s suf : String) : Bool :=
  suf.data.isSuffixOf s.data

/-- JS `s.length` (the length used by the comparator in
`sortWorkspaceFolders`). -/
def jsLength (s : String) : Nat :=
  s.data.length

/-- Character-list worker for JS `String.prototype.split` with a
one-character separator. -/
def jsSplitGo (sep : Char) : List Char → List (List Char)
  | [] => [[]]
  | c :: rest =>
    if c = sep then [] :: jsSplitGo sep rest
    else
      match jsSplitGo sep rest with
      | [] => [[c]]
      | h :: t => (c :: h) :: t

/-- JS `s.split(sep)` for a one-character separator; in particular
`"".split(" ")` is `[""]`. -/
def jsSplit (s : String) (sep : Char) : List String :=
  (jsSplitGo sep s.data).map (fun cs => String.mk cs)

/-! ### Names, binaries and binary discovery (lines 34-83) -/

/-- Line 34: `let extensionName = "Grain Language Server"`. -/
def extensionName : String := "Grain Language Server"

/-- Line 36: `let languageId = "grain"`. -/
def languageId : String := "grain"

/-- Lines 65-70: the candidate binary names, in order. -/
def grainBinaries : List String :=
  ["grain", "grain-mac-x64", "grain-linux-x64", "grain-win-x64"]

/-- Line 82: the message of the error thrown when no binary is found. -/
def grainNotFoundMessage : String :=
  "Unable to locate any Grain binary. Did you install it?"

/-- The loop body of `findGrain` (lines 73-81): try `which.sync` on each
binary name in order, returning the first hit.  The function
`w : String → Option String` models `which.sync` (`none` models the
not-found exception caught by the loop). -/
def findGrainGo (w : String → Option String) : List String → Except String String
  | [] => Except.error grainNotFoundMessage
  | b :: rest =>
    match w b with
    | some grain => Except.ok grain
    | none => findGrainGo w rest

/-- `findGrain` (lines 72-83): scan `grainBinaries` with `which.sync`,
throwing (synchronously, modelled by `Except.error`) when every lookup
fails. -/
def findGrain (w : String → Option String) : Except String String :=
  findGrainGo w grainBinaries

/-! ### Configuration and the LSP command (lines 123-142) -/

/-- The `grain.*` configuration section for one URI scope, as read by
`workspace.getConfiguration("grain", uri)`: each key is a possibly-unset
value (`none` models JS `undefined`). -/
structure GrainConfig where
  enableLSP : Option Bool
  cliPath : Option String
  cliFlags : Option String

/-- The host environment consulted by the pure parts of the extension:
the per-URI configuration and the `which.sync` lookup. -/
structure Env where
  config : String → GrainConfig
  which : String → Option String

/-- Lines 134-135: `command.replace(/\.EXE$/, ".exe")`. -/
def replaceEXESuffix (c : String) : String :=
  if jsEndsWith c ".EXE" then
    String.mk (c.data.take (c.data.length - 4)) ++ ".exe"
  else c

/-- `getLspCommand` (lines 123-142).  Returns `Except.ok none` when
`grain.enableLSP` is not `true` (JS `!lspEnabled` is taken for both
`false` and `undefined`), otherwise resolves the command — the
configured `grain.cliPath` unless it is unset or `""` (JS `||` treats
the empty string as falsy), in which case `findGrain` runs and may
throw — and builds `["lsp", ...flags.split(" ")]`. -/
def getLspCommand (env : Env) (uri : String) : Except String (Option (String × List String)) :=
  let config := env.config uri
  if config.enableLSP = some true then
    let pathRes : Except String String :=
      match config.cliPath with
      | some s => if s = "" then findGrain env.which else Except.ok s
      | none => findGrain env.which
    match pathRes with
    | Except.error e => Except.error e
    | Except.ok command0 =>
      let command := replaceEXESuffix command0
      let flags :=
        match config.cliFlags with
        | some s => s
        | none => ""
      let args := "lsp" :: jsSplit flags ' '
      Except.ok (some (command, args))
  else Except.ok none

/-! ### Extension state (lines 38-44 and the start/stop effects) -/

/-- Errors surfaced by the client-start path: `typeError` models the JS
`TypeError` raised when `startFileClient`/`startWorkspaceClient`
destructure the `undefined` returned by a disabled `getLspCommand`;
`grainError` models the `Error` thrown by `findGrain`. -/
inductive ExtErr where
  | typeError
  | grainError (msg : String)
deriving DecidableEq, Repr

/-- A workspace folder as used by the source: we retain its URI in
string form (`folder.uri.toString()`). -/
structure WorkspaceFolder where
  uri : String
deriving DecidableEq, Repr

/-- The module-level mutable state of `extension.ts`: the two client
registries (line 38-39), the mutex flag set (line 41) and the sorted
workspace-folder cache (line 98).  Clients are identified by the `Nat`
drawn from `nextId` when they are started; `startedFile` and
`startedWorkspace` log every `(key, id)` client start and `stopped`
logs every id on which `client.stop()` was called. -/
structure ExtState where
  fileClients : List (String × Nat)
  workspaceClients : List (String × Nat)
  activeMutex : List String
  workspaceFoldersCache : List String
  startedFile : List (String × Nat)
  startedWorkspace : List (String × Nat)
  stopped : List Nat
  nextId : Nat
deriving DecidableEq, Repr

/-- The state at module load: empty registries and logs. -/
def initState : ExtState :=
  { fileClients := []
    workspaceClients := []
    activeMutex := []
    workspaceFoldersCache := []
    startedFile := []
    startedWorkspace := []
    stopped := []
    nextId := 0 }

/-- `Map.get key` on an association-list registry (`undefined` is
`none`). -/
def lookupKey (key : String) : List (String × Nat) → Option Nat
  | [] => none
  | p :: t => if p.1 = key then some p.2 else lookupKey key t

/-- `Map.delete key` on an association-list registry. -/
def eraseKey (key : String) : List (String × Nat) → List (String × Nat)
  | [] => []
  | p :: t => if p.1 = key then eraseKey key t else p :: eraseKey key t

/-- The effect of `await client.stop()` on a client id: record it in
the stop log. -/
def stopClient (c : Nat) (s : ExtState) : ExtState :=
  { s with stopped := c :: s.stopped }

/-! ### File clients (lines 144-206) -/

/-- `startFileClient` (lines 144-188), reduced to its state effect: it
destructures `getLspCommand` — throwing `TypeError` when that returned
`undefined` and propagating a `findGrain` error — and otherwise starts a
fresh client for the URI, which we log under a fresh id. -/
def startFileClient (env : Env) (uri : String) (s : ExtState) : Except ExtErr (ExtState × Nat) :=
  match getLspCommand env uri with
  | Except.error e => Except.error (ExtErr.grainError e)
  | Except.ok none => Except.error ExtErr.typeError
  | Except.ok (some _) =>
    let id := s.nextId
    Except.ok ({ s with startedFile := (uri, id) :: s.startedFile, nextId := id + 1 }, id)

/-- `addFileClient` (lines 190-197): start and store a client only when
`fileClients` has no entry for the URI. -/
def addFileClient (env : Env) (uri : String) (s : ExtState) : Except ExtErr ExtState :=
  if (lookupKey uri s.fileClients).isSome then Except.ok s
  else
    match startFileClient env uri s with
    | Except.error e => Except.error e
    | Except.ok (s1, id) =>
      Except.ok { s1 with fileClients := (uri, id) :: s1.fileClients }

/-- `removeFileClient` (lines 199-206): when the URI has a client, stop
it and delete its registry entry. -/
def removeFileClient (uri : String) (s : ExtState) : ExtState :=
  match lookupKey uri s.fileClients with
  | some client => { stopClient client s with fileClients := eraseKey uri s.fileClients }
  | none => s

/-! ### Workspace clients (lines 208-268) -/

/-- `startWorkspaceClient` (lines 208-250): same shape as
`startFileClient`, keyed by the folder URI. -/
def startWorkspaceClient (env : Env) (folder : WorkspaceFolder) (s : ExtState) :
    Except ExtErr (ExtState × Nat) :=
  match getLspCommand env folder.uri with
  | Except.error e => Except.error (ExtErr.grainError e)
  | Except.ok none => Except.error ExtErr.typeError
  | Except.ok (some _) =>
    let id := s.nextId
    Except.ok ({ s with startedWorkspace := (folder.uri, id) :: s.startedWorkspace, nextId := id + 1 }, id)

/-- `addWorkspaceClient` (lines 252-259): start and store a client only
when `workspaceClients` has no entry for `folder.uri.toString()`. -/
def addWorkspaceClient (env : Env) (folder : WorkspaceFolder) (s : ExtState) : Except ExtErr ExtState :=
  if (lookupKey folder.uri s.workspaceClients).isSome then Except.ok s
  else
    match startWorkspaceClient env folder s with
    | Except.error e => Except.error e
    | Except.ok (s1, id) =>
      Except.ok { s1 with workspaceClients := (folder.uri, id) :: s1.workspaceClients }

/-- `removeWorkspaceClient` (lines 261-268). -/
def removeWorkspaceClient (folder : WorkspaceFolder) (s : ExtState) : ExtState :=
  match lookupKey folder.uri s.workspaceClients with
  | some client =>
    { stopClient client s with workspaceClients := eraseKey folder.uri s.workspaceClients }
  | none => s

/-! ### Sequences of add/remove operations -/

/-- The add/remove registry operations an event handler can perform. -/
inductive Op where
  | addFile (uri : String)
  | removeFile (uri : String)
  | addWorkspace (uri : String)
  | removeWorkspace (uri : String)
deriving DecidableEq, Repr

/-- The state after one operation settles.  When an `add` throws
(`getLspCommand` raised before any mutation), the registries are left
untouched and the rejection propagates to the host, so the settled
state is the prior one. -/
def applyOp (env : Env) (s : ExtState) : Op → ExtState
  | Op.addFile uri =>
    match addFileClient env uri s with
    | Except.ok s1 => s1
    | Except.error _ => s
  | Op.removeFile uri => removeFileClient uri s
  | Op.addWorkspace uri =>
    match addWorkspaceClient env ⟨uri⟩ s with
    | Except.ok s1 => s1
    | Except.error _ => s
  | Op.removeWorkspace uri => removeWorkspaceClient ⟨uri⟩ s

/-- A sequence of operations, each running under the environment (the
configuration and `PATH` contents) current at its time. -/
def applyOps (l : List (Env × Op)) (s : ExtState) : ExtState :=
  l.foldl (fun st p => applyOp p.1 st p.2) s

/-- A client is live for a file key when it was started for that key
and `stop()` has not been called on it. -/
def liveFileClient (s : ExtState) (key : String) (c : Nat) : Prop :=
  (key, c) ∈ s.startedFile ∧ c ∉ s.stopped

instance (s : ExtState) (key : String) (c : Nat) : Decidable (liveFileClient s key c) :=
  inferInstanceAs (Decidable (_ ∧ _))

/-- A client is live for a workspace key when it was started for that
key and `stop()` has not been called on it. -/
def liveWorkspaceClient (s : ExtState) (key : String) (c : Nat) : Prop :=
  (key, c) ∈ s.startedWorkspace ∧ c ∉ s.stopped

instance (s : ExtState) (key : String) (c : Nat) : Decidable (liveWorkspaceClient s key c) :=
  inferInstanceAs (Decidable (_ ∧ _))

/-! ### The mutex guard (lines 46-63) -/

/-- What one invocation of a `mutex(key, fn)`-wrapped handler leaves
behind: the flag set after the invocation settles, whether `fn` was
run at all, and the error rethrown on a microtask when `fn` rejected. -/
structure MutexResult where
  active : List String
  ran : Bool
  rethrown : Option String
deriving DecidableEq, Repr

/-- One settled invocation of the function returned by
`mutex(key, fn)` (lines 46-63): when `key` is in `activeMutex` the
invocation returns immediately without running `fn`; otherwise the key
is added, `fn` runs to its outcome, a rejection is rethrown on a
microtask (line 55-57), and `.finally` deletes the key (lines 59-61). -/
def mutexInvoke (active : List String) (key : String) (outcome : Except String Unit) :
    MutexResult :=
  if key ∈ active then ⟨active, false, none⟩
  else
    let added := key :: active
    let settled := added.filter (fun k => k ≠ key)
    ⟨settled, true,
      match outcome with
      | Except.ok _ => none
      | Except.error e => some e⟩

/-! ### Configuration-change handlers (lines 298-345) -/

/-- One `ConfigurationChangeEvent` as seen by a handler closed over one
key: whether it affects each of the three `grain.*` settings at that
key's URI scope. -/
structure ConfigEvent where
  affectsCliFlags : Bool
  affectsCliPath : Bool
  affectsEnableLSP : Bool
deriving DecidableEq, Repr

/-- The registry operations performed by the workspace-folder
configuration handler (lines 300-315) for its folder key: each
affected setting triggers `removeWorkspaceClient` then
`addWorkspaceClient`. -/
def workspaceConfigOps (key : String) (e : ConfigEvent) : List Op :=
  (if e.affectsCliFlags then [Op.removeWorkspace key, Op.addWorkspace key] else []) ++
  ((if e.affectsCliPath then [Op.removeWorkspace key, Op.addWorkspace key] else []) ++
    (if e.affectsEnableLSP then [Op.removeWorkspace key, Op.addWorkspace key] else []))

/-- The registry operations performed by the single-file configuration
handler (lines 329-344) for its URI key. -/
def fileConfigOps (key : String) (e : ConfigEvent) : List Op :=
  (if e.affectsCliFlags then [Op.removeFile key, Op.addFile key] else []) ++
  ((if e.affectsCliPath then [Op.removeFile key, Op.addFile key] else []) ++
    (if e.affectsEnableLSP then [Op.removeFile key, Op.addFile key] else []))

/-- The body of the workspace configuration handler as a state change. -/
def workspaceConfigHandler (env : Env) (key : String) (e : ConfigEvent) (s : ExtState) : ExtState :=
  applyOps ((workspaceConfigOps key e).map (fun o => (env, o))) s

/-- The body of the single-file configuration handler as a state change. -/
def fileConfigHandler (env : Env) (key : String) (e : ConfigEvent) (s : ExtState) : ExtState :=
  applyOps ((fileConfigOps key e).map (fun o => (env, o))) s

/-! ### Workspace-folder change and deactivation (lines 351-362, 419-426) -/

/-- A `WorkspaceFoldersChangeEvent`. -/
structure WorkspaceFoldersChangeEvent where
  added : List WorkspaceFolder
  removed : List WorkspaceFolder

/-- The loop of lines 359-361. -/
def removeAllWorkspaceClients (rs : List WorkspaceFolder) (s : ExtState) : ExtState :=
  rs.foldl (fun st f => removeWorkspaceClient f st) s

/-- `didChangeWorkspaceFolders` (lines 351-362): reset the sorted-folder
cache, then remove the client of every removed folder; added folders
are deliberately ignored. -/
def didChangeWorkspaceFolders (event : WorkspaceFoldersChangeEvent) (s : ExtState) : ExtState :=
  removeAllWorkspaceClients event.removed { s with workspaceFoldersCache := [] }

/-- `deactivate` (lines 419-426): stop every client of `fileClients`,
then every client of `workspaceClients`. -/
def deactivate (s : ExtState) : ExtState :=
  let s1 := (s.fileClients.map Prod.snd).foldl (fun st c => stopClient c st) s
  (s.workspaceClients.map Prod.snd).foldl (fun st c => stopClient c st) s1

/-! ### Client options and the error handler (lines 147-160, 211-222) -/

/-- The `errorHandler` slot of a `LanguageClientOptions` value. -/
inductive ErrorHandlerOption where
  | noHandler
  | grainErrorHandler (name : String) (maxRestartCount : Nat)
deriving DecidableEq, Repr

/-- The part of the `clientOptions` literal of `startFileClient`
(lines 147-160) relevant to error handling: a
`GrainErrorHandler(extensionName, grainStatusBarItem, 5)` is installed
only when `grainStatusBarItem` is non-null, and `undefined` otherwise. -/
def startFileClientOptionsErrorHandler (statusItemPresent : Bool) : ErrorHandlerOption :=
  if statusItemPresent then ErrorHandlerOption.grainErrorHandler extensionName 5
  else ErrorHandlerOption.noHandler

/-- The `clientOptions` literal of `startWorkspaceClient`
(lines 211-222) carries no `errorHandler` field at all. -/
def startWorkspaceClientOptionsErrorHandler : ErrorHandlerOption :=
  ErrorHandlerOption.noHandler

/-! ### Workspace-folder sorting and nesting (lines 85-121) -/

/-- `dirpathFromUri` (lines 85-91): `uri.toString()` with a trailing
slash appended when absent. -/
def dirpathFromUri (uri : String) : String :=
  if jsEndsWith uri "/" then uri else uri ++ "/"

/-- `sortWorkspaceFolders` (lines 98-110): when the cache is empty it
is refilled from `workspace.workspaceFolders` (possibly `undefined`)
by mapping to directory paths and sorting ascending by length
(`(a, b) => a.length - b.length`, a stable ascending sort, embedded
with the stable `List.insertionSort`); otherwise the cache is
returned as is. -/
def sortWorkspaceFolders (cache : List String) (current : Option (List WorkspaceFolder)) :
    List String :=
  if cache.length = 0 then
    match current with
    | none => []
    | some folders =>
      List.insertionSort (fun a b => jsLength a ≤ jsLength b)
        (folders.map (fun f => dirpathFromUri f.uri))
  else cache

/-- Modelled host API (external dependency, not repository code):
helper for `workspace.getWorkspaceFolder`, choosing a folder with the
longest directory path from a candidate list. -/
def pickDeepest : List WorkspaceFolder → Option WorkspaceFolder
  | [] => none
  | f :: rest =>
    match pickDeepest rest with
    | none => some f
    | some g =>
      if jsLength (dirpathFromUri g.uri) ≤ jsLength (dirpathFromUri f.uri) then some f
      else some g

/-- Modelled host API (external dependency, not repository code):
`workspace.getWorkspaceFolder(uri)` returns the deepest workspace
folder whose directory path contains the URI, or `undefined` when no
folder contains it. -/
def getWorkspaceFolderHost (folders : List WorkspaceFolder) (u : String) :
    Option WorkspaceFolder :=
  pickDeepest
    (folders.filter (fun f => jsStartsWith (dirpathFromUri u) (dirpathFromUri f.uri)))

/-- The loop of `getOuterMostWorkspaceFolder` (lines 114-119): scan the
sorted directory paths and, at the first one that is a prefix of the
argument folder's directory path, look the folder up through the host
API (the source's trailing `!` is modelled by keeping the `Option`). -/
def outerScan (folders : List WorkspaceFolder) (folder : WorkspaceFolder) :
    List String → Option WorkspaceFolder
  | [] => some folder
  | e :: rest =>
    if jsStartsWith (dirpathFromUri folder.uri) e then getWorkspaceFolderHost folders e
    else outerScan folders folder rest

/-- `getOuterMostWorkspaceFolder` (lines 112-121), explicit in the
cached list and in the current `workspace.workspaceFolders`. -/
def getOuterMostWorkspaceFolder (cache : List String) (folders : List WorkspaceFolder)
    (folder : WorkspaceFolder) : Option WorkspaceFolder :=
  outerScan folders folder (sortWorkspaceFolders cache (some folders))

/-! ## Theorems for the claims -/

/-- C6: when none of the known Grain binary names can be located,
`findGrain` throws an `Error` synchronously (modelled by
`Except.error`, not a promise), and when any name is located it
returns the first resolved path in the order of `grainBinaries` —
exactly `List.findSome?` over the binary list. -/
theorem c6_findGrain_first_or_error (w : String → Option String) :
    findGrain w =
      match grainBinaries.findSome? w with
      | some p => Except.ok p
      | none => Except.error grainNotFoundMessage := by
  unfold findGrain grainBinaries
  cases h1 : w "grain" <;> cases h2 : w "grain-mac-x64" <;>
    cases h3 : w "grain-linux-x64" <;> cases h4 : w "grain-win-x64" <;>
      simp [findGrainGo, List.findSome?_cons, h1, h2, h3, h4]

/-- C4: while an invocation guarded by `mutex(key, fn)` is pending
(`key ∈ activeMutex`), a further invocation for the same key returns
immediately without running `fn` and without touching the state, while
an invocation for a key not in `activeMutex` is not blocked and runs
its `fn`. -/
theorem c4_mutex_excludes_only_same_key (active : List String) (key key2 : String)
    (o o2 : Except String Unit) :
    (key ∈ active → mutexInvoke active key o = ⟨active, false, none⟩) ∧
    (key2 ∉ active → (mutexInvoke active key2 o2).ran = true) := by
  constructor
  · intro h
    simp [mutexInvoke, h]
  · intro h
    simp [mutexInvoke, h]

theorem c4_witness :
    ("a" ∈ ["a"] ∧ "b" ∉ ["a"]) ∧
    mutexInvoke ["a"] "a" (Except.ok ()) = ⟨["a"], false, none⟩ ∧
    (mutexInvoke ["a"] "b" (Except.ok ())).ran = true :=
  ⟨by decide,
    (c4_mutex_excludes_only_same_key ["a"] "a" "b" (Except.ok ()) (Except.ok ())).1 (by decide),
    (c4_mutex_excludes_only_same_key ["a"] "a" "b" (Except.ok ()) (Except.ok ())).2 (by decide)⟩

/-- C10: the mutex guard always releases its key: when the invocation
actually ran (its key was free), the flag set after it settles equals
the prior one — in particular the key is no longer held — whether the
wrapped function resolved or rejected; a rejection is rethrown (on a
microtask) rather than swallowed. -/
theorem c10_mutex_releases_key (active : List String) (key : String)
    (o : Except String Unit) (h : key ∉ active) :
    (mutexInvoke active key o).active = active ∧
    key ∉ (mutexInvoke active key o).active ∧
    (mutexInvoke active key o).rethrown =
      (match o with
       | Except.ok _ => none
       | Except.error e => some e) := by
  have hfilter : active.filter (fun k => k ≠ key) = active := by
    rw [List.filter_eq_self]
    intro a ha
    have : a ≠ key := fun hak => h (hak ▸ ha)
    simpa using this
  have hact : (mutexInvoke active key o).active = active := by
    simp only [mutexInvoke, if_neg h, List.filter_cons]
    rw [if_neg (by simp)]
    exact hfilter
  refine ⟨hact, ?_, ?_⟩
  · rw [hact]; exact h
  · simp [mutexInvoke, h]

theorem c10_witness :
    ("k" ∉ ([] : List String)) ∧
    (mutexInvoke [] "k" (Except.error "boom")).active = [] ∧
    "k" ∉ (mutexInvoke [] "k" (Except.error "boom")).active ∧
    (mutexInvoke [] "k" (Except.error "boom")).rethrown = some "boom" :=
  ⟨by decide,
    (c10_mutex_releases_key [] "k" (Except.error "boom") (by decide)).1,
    (c10_mutex_releases_key [] "k" (Except.error "boom") (by decide)).2.1,
    (c10_mutex_releases_key [] "k" (Except.error "boom") (by decide)).2.2⟩

/-- C5 counterexample: the claim says every client started by the
extension gets an error handler with a retry budget of 5, but the
`clientOptions` of `startWorkspaceClient` (lines 211-222) carry no
`errorHandler` at all, so a workspace client — a concrete client of
this extension — is not configured with the budget-5 handler. -/
theorem c5_counterexample :
    startWorkspaceClientOptionsErrorHandler = ErrorHandlerOption.noHandler ∧
    startWorkspaceClientOptionsErrorHandler ≠
      ErrorHandlerOption.grainErrorHandler extensionName 5 := by
  constructor
  · rfl
  · decide

/-- C5 (amended): only single-file clients are configured with the
`GrainErrorHandler` retry budget of 5 restarts, and only when the
status bar item has been created; when it has not, and for every
workspace client, no error handler is configured (the client library's
default applies). -/
theorem c5_error_handler_configuration :
    startFileClientOptionsErrorHandler true =
      ErrorHandlerOption.grainErrorHandler extensionName 5 ∧
    startFileClientOptionsErrorHandler false = ErrorHandlerOption.noHandler ∧
    startWorkspaceClientOptionsErrorHandler = ErrorHandlerOption.noHandler := by
  refine ⟨rfl, rfl, rfl⟩

/-- C9: when `grain.enableLSP` for a URI is `false` or unset,
`getLspCommand` returns `undefined`, and because both
`startFileClient` and `startWorkspaceClient` immediately destructure
that result, opening a Grain document with the LSP disabled throws a
`TypeError` instead of skipping client creation, and no client is
added to either registry (the settled state is unchanged). -/
theorem c9_disabled_lsp_type_error (env : Env) (uri : String)
    (hdis : (env.config uri).enableLSP = some false ∨ (env.config uri).enableLSP = none) :
    getLspCommand env uri = Except.ok none ∧
    (∀ s : ExtState, lookupKey uri s.fileClients = none →
      addFileClient env uri s = Except.error ExtErr.typeError) ∧
    (∀ s : ExtState, lookupKey uri s.workspaceClients = none →
      addWorkspaceClient env ⟨uri⟩ s = Except.error ExtErr.typeError) ∧
    (∀ s : ExtState, applyOp env s (Op.addFile uri) = s ∧ applyOp env s (Op.addWorkspace uri) = s) := by
  have hcmd : getLspCommand env uri = Except.ok none := by
    rcases hdis with h | h <;> simp [getLspCommand, h]
  have hfile : ∀ s : ExtState, lookupKey uri s.fileClients = none →
      addFileClient env uri s = Except.error ExtErr.typeError := by
    intro s hlk
    simp [addFileClient, hlk, startFileClient, hcmd]
  have hws : ∀ s : ExtState, lookupKey uri s.workspaceClients = none →
      addWorkspaceClient env ⟨uri⟩ s = Except.error ExtErr.typeError := by
    intro s hlk
    simp [addWorkspaceClient, hlk, startWorkspaceClient, hcmd]
  refine ⟨hcmd, hfile, hws, ?_⟩
  intro s
  constructor
  · cases hlk : lookupKey uri s.fileClients with
    | some c => simp [applyOp, addFileClient, hlk]
    | none => simp [applyOp, hfile s hlk]
  · cases hlk : lookupKey uri s.workspaceClients with
    | some c => simp [applyOp, addWorkspaceClient, hlk]
    | none => simp [applyOp, hws s hlk]

theorem c9_witness :
    (let envOff : Env := ⟨fun _ => ⟨some false, none, none⟩, fun _ => none⟩;
      ((envOff.config "file:///a.gr").enableLSP = some false ∨
        (envOff.config "file:///a.gr").enableLSP = none) ∧
      lookupKey "file:///a.gr" initState.fileClients = none ∧
      getLspCommand envOff "file:///a.gr" = Except.ok none ∧
      addFileClient envOff "file:///a.gr" initState = Except.error ExtErr.typeError ∧
      applyOp envOff initState (Op.addFile "file:///a.gr") = initState) :=
  ⟨Or.inl rfl, rfl,
    (c9_disabled_lsp_type_error ⟨fun _ => ⟨some false, none, none⟩, fun _ => none⟩
      "file:///a.gr" (Or.inl rfl)).1,
    (c9_disabled_lsp_type_error ⟨fun _ => ⟨some false, none, none⟩, fun _ => none⟩
      "file:///a.gr" (Or.inl rfl)).2.1 initState rfl,
    ((c9_disabled_lsp_type_error ⟨fun _ => ⟨some false, none, none⟩, fun _ => none⟩
      "file:///a.gr" (Or.inl rfl)).2.2.2 initState).1⟩

/-! ### Deactivation stops everything (C2) -/

lemma foldl_stopClient_stopped (cs : List Nat) (s : ExtState) :
    (cs.foldl (fun st c => stopClient c st) s).stopped = cs.reverse ++ s.stopped := by
  induction cs generalizing s with
  | nil => rfl
  | cons c cs ih =>
    rw [List.foldl_cons, ih]
    simp [stopClient]

/-- C2: after `deactivate` resolves, `client.stop()` has been called on
every client stored in `fileClients` and on every client stored in
`workspaceClients`. -/
theorem c2_deactivate_stops_every_client (s : ExtState) :
    (∀ p ∈ s.fileClients, p.2 ∈ (deactivate s).stopped) ∧
    (∀ p ∈ s.workspaceClients, p.2 ∈ (deactivate s).stopped) := by
  have hstopped : (deactivate s).stopped =
      (s.workspaceClients.map Prod.snd).reverse ++
        ((s.fileClients.map Prod.snd).reverse ++ s.stopped) := by
    unfold deactivate
    rw [foldl_stopClient_stopped, foldl_stopClient_stopped]
  constructor
  · intro p hp
    rw [hstopped]
    have : p.2 ∈ s.fileClients.map Prod.snd := List.mem_map.mpr ⟨p, hp, rfl⟩
    simp [this]
  · intro p hp
    rw [hstopped]
    have : p.2 ∈ s.workspaceClients.map Prod.snd := List.mem_map.mpr ⟨p, hp, rfl⟩
    simp [this]

theorem c2_witness :
    (let sW : ExtState :=
      { initState with fileClients := [("file:///a.gr", 0)], workspaceClients := [("file:///w", 1)] };
      (("file:///a.gr", 0) ∈ sW.fileClients ∧ ("file:///w", 1) ∈ sW.workspaceClients) ∧
      (0 ∈ (deactivate sW).stopped ∧ 1 ∈ (deactivate sW).stopped)) :=
  ⟨⟨by decide, by decide⟩,
    (c2_deactivate_stops_every_client
      { initState with fileClients := [("file:///a.gr", 0)], workspaceClients := [("file:///w", 1)] }).1
      ("file:///a.gr", 0) (by decide),
    (c2_deactivate_stops_every_client
      { initState with fileClients := [("file:///a.gr", 0)], workspaceClients := [("file:///w", 1)] }).2
      ("file:///w", 1) (by decide)⟩

/-! ### Removal precedes re-adding on configuration change (C3) -/

lemma removeBeforeAdd_block (rm ad : Op) (hne : rm ≠ ad) (l : List Op)
    (hl : ∀ i : Nat, l[i]? = some ad → ∃ j, j < i ∧ l[j]? = some rm) :
    ∀ i : Nat, (rm :: ad :: l)[i]? = some ad → ∃ j, j < i ∧ (rm :: ad :: l)[j]? = some rm := by
  intro i hi
  match i with
  | 0 =>
    simp only [List.getElem?_cons_zero, Option.some.injEq] at hi
    exact absurd hi hne
  | 1 =>
    exact ⟨0, by omega, by simp⟩
  | n + 2 =>
    have hi2 : l[n]? = some ad := by simpa using hi
    obtain ⟨j, hj, hg⟩ := hl n hi2
    exact ⟨j + 2, by omega, by simpa using hg⟩

lemma removeBeforeAdd_nil (rm ad : Op) :
    ∀ i : Nat, (([] : List Op))[i]? = some ad → ∃ j, j < i ∧ (([] : List Op))[j]? = some rm := by
  intro i hi
  simp at hi

lemma removeBeforeAdd_blockOrNil (rm ad : Op) (hne : rm ≠ ad) (b : List Op)
    (hb : b = [] ∨ b = [rm, ad]) :
    ∀ i : Nat, b[i]? = some ad → ∃ j, j < i ∧ b[j]? = some rm := by
  rcases hb with rfl | rfl
  · exact removeBeforeAdd_nil rm ad
  · exact removeBeforeAdd_block rm ad hne [] (removeBeforeAdd_nil rm ad)

lemma removeBeforeAdd_append (rm ad : Op) (hne : rm ≠ ad) (b l : List Op)
    (hb : b = [] ∨ b = [rm, ad])
    (hl : ∀ i : Nat, l[i]? = some ad → ∃ j, j < i ∧ l[j]? = some rm) :
    ∀ i : Nat, (b ++ l)[i]? = some ad → ∃ j, j < i ∧ (b ++ l)[j]? = some rm := by
  rcases hb with rfl | rfl
  · simpa using hl
  · exact removeBeforeAdd_block rm ad hne l hl

/-- C3: on every configuration-change event affecting
`grain.cliFlags`, `grain.cliPath` or `grain.enableLSP` for a tracked
key, the handler's operation sequence removes the existing client
before re-adding one: every `add` in the sequence is preceded by an
earlier `remove` for the same key, for workspace-folder handlers and
single-file handlers alike. -/
theorem c3_remove_precedes_add (key : String) (e : ConfigEvent) :
    (∀ i : Nat, (workspaceConfigOps key e)[i]? = some (Op.addWorkspace key) →
      ∃ j, j < i ∧ (workspaceConfigOps key e)[j]? = some (Op.removeWorkspace key)) ∧
    (∀ i : Nat, (fileConfigOps key e)[i]? = some (Op.addFile key) →
      ∃ j, j < i ∧ (fileConfigOps key e)[j]? = some (Op.removeFile key)) := by
  constructor
  · unfold workspaceConfigOps
    refine removeBeforeAdd_append (Op.removeWorkspace key) (Op.addWorkspace key) (by simp) _ _ ?_
      (removeBeforeAdd_append (Op.removeWorkspace key) (Op.addWorkspace key) (by simp) _ _ ?_
        (removeBeforeAdd_blockOrNil (Op.removeWorkspace key) (Op.addWorkspace key) (by simp) _ ?_))
    · by_cases h : e.affectsCliFlags <;> simp [h]
    · by_cases h : e.affectsCliPath <;> simp [h]
    · by_cases h : e.affectsEnableLSP <;> simp [h]
  · unfold fileConfigOps
    refine removeBeforeAdd_append (Op.removeFile key) (Op.addFile key) (by simp) _ _ ?_
      (removeBeforeAdd_append (Op.removeFile key) (Op.addFile key) (by simp) _ _ ?_
        (removeBeforeAdd_blockOrNil (Op.removeFile key) (Op.addFile key) (by simp) _ ?_))
    · by_cases h : e.affectsCliFlags <;> simp [h]
    · by_cases h : e.affectsCliPath <;> simp [h]
    · by_cases h : e.affectsEnableLSP <;> simp [h]

theorem c3_witness :
    ((workspaceConfigOps "w" ⟨true, true, true⟩)[1]? = some (Op.addWorkspace "w") ∧
      (fileConfigOps "u" ⟨false, true, false⟩)[1]? = some (Op.addFile "u")) ∧
    (∃ j, j < 1 ∧ (workspaceConfigOps "w" ⟨true, true, true⟩)[j]? =
      some (Op.removeWorkspace "w")) ∧
    (∃ j, j < 1 ∧ (fileConfigOps "u" ⟨false, true, false⟩)[j]? = some (Op.removeFile "u")) :=
  ⟨⟨by decide, by decide⟩,
    (c3_remove_precedes_add "w" ⟨true, true, true⟩).1 1 (by decide),
    (c3_remove_precedes_add "u" ⟨false, true, false⟩).2 1 (by decide)⟩

/-! ### At most one live client per key (C1) -/

lemma lookupKey_cons (k : String) (p : String × Nat) (t : List (String × Nat)) :
    lookupKey k (p :: t) = if p.1 = k then some p.2 else lookupKey k t := rfl

lemma lookupKey_eraseKey_self (u : String) (l : List (String × Nat)) :
    lookupKey u (eraseKey u l) = none := by
  induction l with
  | nil => rfl
  | cons p t ih =>
    by_cases hp : p.1 = u
    · simpa [eraseKey, hp] using ih
    · simpa [eraseKey, hp, lookupKey_cons] using ih

lemma lookupKey_eraseKey_ne (u k : String) (hk : k ≠ u) (l : List (String × Nat)) :
    lookupKey k (eraseKey u l) = lookupKey k l := by
  induction l with
  | nil => rfl
  | cons p t ih =>
    by_cases hp : p.1 = u
    · rw [eraseKey, if_pos hp, ih, lookupKey_cons, if_neg (fun h => hk (h.symm.trans hp))]
    · rw [eraseKey, if_neg hp, lookupKey_cons, lookupKey_cons]
      by_cases hpk : p.1 = k
      · rw [if_pos hpk, if_pos hpk]
      · rw [if_neg hpk, if_neg hpk, ih]

/-- The linking invariant behind C1: every client ever started for a
key is either stopped or the unique registry entry of that key. -/
def RegInv (s : ExtState) : Prop :=
  (∀ p ∈ s.startedFile, p.2 ∈ s.stopped ∨ lookupKey p.1 s.fileClients = some p.2) ∧
  (∀ p ∈ s.startedWorkspace, p.2 ∈ s.stopped ∨ lookupKey p.1 s.workspaceClients = some p.2)

lemma regInv_init : RegInv initState := by
  constructor <;> intro p hp <;> simp [initState] at hp

lemma regInv_applyOp (env : Env) (op : Op) (s : ExtState) (h : RegInv s) :
    RegInv (applyOp env s op) := by
  obtain ⟨hf, hw⟩ := h
  cases op with
  | addFile uri =>
    simp only [applyOp]
    cases hlk : lookupKey uri s.fileClients with
    | some c =>
      simp only [addFileClient, hlk, Option.isSome_some, if_true]
      exact ⟨hf, hw⟩
    | none =>
      cases hcmd : getLspCommand env uri with
      | error e =>
        simp only [addFileClient, hlk, Option.isSome_none, Bool.false_eq_true, if_false,
          startFileClient, hcmd]
        exact ⟨hf, hw⟩
      | ok o =>
        cases o with
        | none =>
          simp only [addFileClient, hlk, Option.isSome_none, Bool.false_eq_true, if_false,
            startFileClient, hcmd]
          exact ⟨hf, hw⟩
        | some ca =>
          simp only [addFileClient, hlk, Option.isSome_none, Bool.false_eq_true, if_false,
            startFileClient, hcmd]
          constructor
          · intro p hp
            rcases List.mem_cons.mp hp with heq | hmem
            · subst heq
              right
              simp [lookupKey_cons]
            · rcases hf p hmem with hst | hlkp
              · exact Or.inl hst
              · right
                rw [lookupKey_cons]
                by_cases hpu : uri = p.1
                · rw [← hpu] at hlkp
                  rw [hlk] at hlkp
                  cases hlkp
                · rw [if_neg (fun hh => hpu hh)]
                  exact hlkp
          · intro p hp
            exact hw p hp
  | removeFile uri =>
    simp only [applyOp, removeFileClient]
    cases hlk : lookupKey uri s.fileClients with
    | none => exact ⟨hf, hw⟩
    | some c =>
      constructor
      · intro p hp
        rcases hf p hp with hst | hlkp
        · exact Or.inl (List.mem_cons_of_mem _ hst)
        · by_cases hpu : p.1 = uri
          · left
            rw [hpu, hlk] at hlkp
            cases hlkp
            exact List.mem_cons_self _ _
          · right
            show lookupKey p.1 (eraseKey uri s.fileClients) = some p.2
            rw [lookupKey_eraseKey_ne uri p.1 hpu]
            exact hlkp
      · intro p hp
        rcases hw p hp with hst | hlkp
        · exact Or.inl (List.mem_cons_of_mem _ hst)
        · exact Or.inr hlkp
  | addWorkspace uri =>
    simp only [applyOp]
    cases hlk : lookupKey uri s.workspaceClients with
    | some c =>
      simp only [addWorkspaceClient, hlk, Option.isSome_some, if_true]
      exact ⟨hf, hw⟩
    | none =>
      cases hcmd : getLspCommand env uri with
      | error e =>
        simp only [addWorkspaceClient, hlk, Option.isSome_none, Bool.false_eq_true, if_false,
          startWorkspaceClient, hcmd]
        exact ⟨hf, hw⟩
      | ok o =>
        cases o with
        | none =>
          simp only [addWorkspaceClient, hlk, Option.isSome_none, Bool.false_eq_true, if_false,
            startWorkspaceClient, hcmd]
          exact ⟨hf, hw⟩
        | some ca =>
          simp only [addWorkspaceClient, hlk, Option.isSome_none, Bool.false_eq_true, if_false,
            startWorkspaceClient, hcmd]
          constructor
          · intro p hp
            exact hf p hp
          · intro p hp
            rcases List.mem_cons.mp hp with heq | hmem
            · subst heq
              right
              simp [lookupKey_cons]
            · rcases hw p hmem with hst | hlkp
              · exact Or.inl hst
              · right
                rw [lookupKey_cons]
                by_cases hpu : uri = p.1
                · rw [← hpu] at hlkp
                  rw [hlk] at hlkp
                  cases hlkp
                · rw [if_neg (fun hh => hpu hh)]
                  exact hlkp
  | removeWorkspace uri =>
    simp only [applyOp, removeWorkspaceClient]
    cases hlk : lookupKey uri s.workspaceClients with
    | none => exact ⟨hf, hw⟩
    | some c =>
      constructor
      · intro p hp
        rcases hf p hp with hst | hlkp
        · exact Or.inl (List.mem_cons_of_mem _ hst)
        · exact Or.inr hlkp
      · intro p hp
        rcases hw p hp with hst | hlkp
        · exact Or.inl (List.mem_cons_of_mem _ hst)
        · by_cases hpu : p.1 = uri
          · left
            rw [hpu, hlk] at hlkp
            cases hlkp
            exact List.mem_cons_self _ _
          · right
            show lookupKey p.1 (eraseKey uri s.workspaceClients) = some p.2
            rw [lookupKey_eraseKey_ne uri p.1 hpu]
            exact hlkp

lemma regInv_applyOps (l : List (Env × Op)) (s : ExtState) (h : RegInv s) :
    RegInv (applyOps l s) := by
  induction l generalizing s with
  | nil => exact h
  | cons p t ih => exact ih _ (regInv_applyOp p.1 p.2 s h)

/-- C1: for every key, at most one live client exists at a time: after
any sequence of add/remove operations from the pristine state, two live
clients for the same file key (or the same workspace key) are the same
client — `addFileClient`/`addWorkspaceClient` only start a client when
the registry has no entry for the key, and removal stops the entry it
deletes. -/
theorem c1_at_most_one_live_client (l : List (Env × Op)) (key : String) (a b : Nat) :
    (liveFileClient (applyOps l initState) key a →
      liveFileClient (applyOps l initState) key b → a = b) ∧
    (liveWorkspaceClient (applyOps l initState) key a →
      liveWorkspaceClient (applyOps l initState) key b → a = b) := by
  have hinv := regInv_applyOps l initState regInv_init
  constructor
  · rintro ⟨hma, hsa⟩ ⟨hmb, hsb⟩
    have ea := (hinv.1 (key, a) hma).resolve_left hsa
    have eb := (hinv.1 (key, b) hmb).resolve_left hsb
    have : some a = some b := ea.symm.trans eb
    exact Option.some.inj this
  · rintro ⟨hma, hsa⟩ ⟨hmb, hsb⟩
    have ea := (hinv.2 (key, a) hma).resolve_left hsa
    have eb := (hinv.2 (key, b) hmb).resolve_left hsb
    have : some a = some b := ea.symm.trans eb
    exact Option.some.inj this

theorem c1_witness :
    (let e : Env := ⟨fun _ => ⟨some true, some "grain", none⟩, fun _ => none⟩;
     let L : List (Env × Op) := [(e, Op.addFile "file:///a.gr"), (e, Op.addWorkspace "file:///w")];
      (liveFileClient (applyOps L initState) "file:///a.gr" 0 ∧
        liveWorkspaceClient (applyOps L initState) "file:///w" 1) ∧
      ((0 : Nat) = 0 ∧ (1 : Nat) = 1)) :=
  ⟨⟨by decide, by decide⟩,
    (c1_at_most_one_live_client
      [(⟨fun _ => ⟨some true, some "grain", none⟩, fun _ => none⟩, Op.addFile "file:///a.gr"),
        (⟨fun _ => ⟨some true, some "grain", none⟩, fun _ => none⟩, Op.addWorkspace "file:///w")]
      "file:///a.gr" 0 0).1 (by decide) (by decide),
    (c1_at_most_one_live_client
      [(⟨fun _ => ⟨some true, some "grain", none⟩, fun _ => none⟩, Op.addFile "file:///a.gr"),
        (⟨fun _ => ⟨some true, some "grain", none⟩, fun _ => none⟩, Op.addWorkspace "file:///w")]
      "file:///w" 1 1).2 (by decide) (by decide)⟩

/-! ### Workspace-folder removal (C7) -/

lemma removeWorkspaceClient_frame (f : WorkspaceFolder) (s : ExtState) :
    (removeWorkspaceClient f s).startedFile = s.startedFile ∧
    (removeWorkspaceClient f s).startedWorkspace = s.startedWorkspace ∧
    (removeWorkspaceClient f s).fileClients = s.fileClients ∧
    (∀ x ∈ s.stopped, x ∈ (removeWorkspaceClient f s).stopped) := by
  unfold removeWorkspaceClient
  cases lookupKey f.uri s.workspaceClients with
  | none => exact ⟨rfl, rfl, rfl, fun x hx => hx⟩
  | some c => exact ⟨rfl, rfl, rfl, fun x hx => List.mem_cons_of_mem _ hx⟩

lemma removeWorkspaceClient_lookup_self (f : WorkspaceFolder) (s : ExtState) :
    lookupKey f.uri (removeWorkspaceClient f s).workspaceClients = none := by
  unfold removeWorkspaceClient
  cases hlk : lookupKey f.uri s.workspaceClients with
  | none => exact hlk
  | some c => exact lookupKey_eraseKey_self f.uri s.workspaceClients

lemma removeWorkspaceClient_lookup_ne (f : WorkspaceFolder) (s : ExtState) (k : String)
    (h : k ≠ f.uri) :
    lookupKey k (removeWorkspaceClient f s).workspaceClients = lookupKey k s.workspaceClients := by
  unfold removeWorkspaceClient
  cases hlk : lookupKey f.uri s.workspaceClients with
  | none => rfl
  | some c => exact lookupKey_eraseKey_ne f.uri k h s.workspaceClients

lemma removeWorkspaceClient_stops (f : WorkspaceFolder) (s : ExtState) (c : Nat)
    (h : lookupKey f.uri s.workspaceClients = some c) :
    c ∈ (removeWorkspaceClient f s).stopped := by
  unfold removeWorkspaceClient
  rw [h]
  exact List.mem_cons_self _ _

lemma removeWorkspaceClient_lookup_none (f : WorkspaceFolder) (s : ExtState) (k : String)
    (h : lookupKey k s.workspaceClients = none) :
    lookupKey k (removeWorkspaceClient f s).workspaceClients = none := by
  by_cases hk : k = f.uri
  · subst hk
    exact removeWorkspaceClient_lookup_self f s
  · rw [removeWorkspaceClient_lookup_ne f s k hk]
    exact h

lemma removeAll_spec (rs : List WorkspaceFolder) (s : ExtState) :
    (removeAllWorkspaceClients rs s).startedFile = s.startedFile ∧
    (removeAllWorkspaceClients rs s).startedWorkspace = s.startedWorkspace ∧
    (removeAllWorkspaceClients rs s).fileClients = s.fileClients ∧
    (∀ x ∈ s.stopped, x ∈ (removeAllWorkspaceClients rs s).stopped) ∧
    (∀ k, lookupKey k s.workspaceClients = none →
      lookupKey k (removeAllWorkspaceClients rs s).workspaceClients = none) ∧
    (∀ k, (∀ f ∈ rs, f.uri ≠ k) →
      lookupKey k (removeAllWorkspaceClients rs s).workspaceClients =
        lookupKey k s.workspaceClients) ∧
    (∀ f ∈ rs, ∀ c, lookupKey f.uri s.workspaceClients = some c →
      c ∈ (removeAllWorkspaceClients rs s).stopped ∧
      lookupKey f.uri (removeAllWorkspaceClients rs s).workspaceClients = none) := by
  induction rs generalizing s with
  | nil =>
    refine ⟨rfl, rfl, rfl, fun x hx => hx, fun k h => h, fun k _ => rfl, ?_⟩
    intro f hf
    simp at hf
  | cons g rs ih =>
    have hstep : removeAllWorkspaceClients (g :: rs) s
        = removeAllWorkspaceClients rs (removeWorkspaceClient g s) := rfl
    rw [hstep]
    obtain ⟨hF, hW, hFC, hMono, hNone, hUn, hRem⟩ := ih (removeWorkspaceClient g s)
    obtain ⟨gF, gW, gFC, gMono⟩ := removeWorkspaceClient_frame g s
    refine ⟨hF.trans gF, hW.trans gW, hFC.trans gFC, ?_, ?_, ?_, ?_⟩
    · intro x hx
      exact hMono x (gMono x hx)
    · intro k hk
      exact hNone k (removeWorkspaceClient_lookup_none g s k hk)
    · intro k hk
      have h1 : lookupKey k (removeWorkspaceClient g s).workspaceClients
          = lookupKey k s.workspaceClients :=
        removeWorkspaceClient_lookup_ne g s k
          (fun h => hk g (List.mem_cons_self g rs) h.symm)
      exact (hUn k (fun f hf => hk f (List.mem_cons_of_mem g hf))).trans h1
    · intro f hf c hc
      rcases List.mem_cons.mp hf with rfl | hfr
      · constructor
        · exact hMono c (removeWorkspaceClient_stops f s c hc)
        · exact hNone f.uri (removeWorkspaceClient_lookup_self f s)
      · by_cases hfg : f.uri = g.uri
        · constructor
          · apply hMono
            apply removeWorkspaceClient_stops g s c
            rw [← hfg]
            exact hc
          · apply hNone
            rw [hfg]
            exact removeWorkspaceClient_lookup_self g s
        · have h1 : lookupKey f.uri (removeWorkspaceClient g s).workspaceClients = some c := by
            rw [removeWorkspaceClient_lookup_ne g s f.uri hfg]
            exact hc
          exact hRem f hfr c h1

/-- C7: for every workspace-folders-change event,
`didChangeWorkspaceFolders` stops and removes from the registry the
client of each removed folder that has one, starts no client for any
added folder (the start logs are unchanged), leaves `fileClients`
unchanged, and leaves the client of every folder outside the removed
set in place. -/
theorem c7_folder_removal_frame (event : WorkspaceFoldersChangeEvent) (s : ExtState) :
    (∀ f ∈ event.removed, ∀ c, lookupKey f.uri s.workspaceClients = some c →
      c ∈ (didChangeWorkspaceFolders event s).stopped ∧
      lookupKey f.uri (didChangeWorkspaceFolders event s).workspaceClients = none) ∧
    (didChangeWorkspaceFolders event s).startedFile = s.startedFile ∧
    (didChangeWorkspaceFolders event s).startedWorkspace = s.startedWorkspace ∧
    (didChangeWorkspaceFolders event s).fileClients = s.fileClients ∧
    (∀ k, (∀ f ∈ event.removed, f.uri ≠ k) →
      lookupKey k (didChangeWorkspaceFolders event s).workspaceClients =
        lookupKey k s.workspaceClients) := by
  obtain ⟨hF, hW, hFC, hMono, hNone, hUn, hRem⟩ :=
    removeAll_spec event.removed { s with workspaceFoldersCache := [] }
  exact ⟨fun f hf c hc => hRem f hf c hc, hF, hW, hFC, fun k hk => hUn k hk⟩

theorem c7_witness :
    (let ev : WorkspaceFoldersChangeEvent := ⟨[⟨"file:///new"⟩], [⟨"file:///w"⟩]⟩;
     let s0 : ExtState :=
      { initState with
          workspaceClients := [("file:///w", 3), ("file:///v", 4)]
          fileClients := [("file:///u.gr", 7)] };
      ((⟨"file:///w"⟩ : WorkspaceFolder) ∈ ev.removed ∧
        lookupKey "file:///w" s0.workspaceClients = some 3 ∧
        (∀ f ∈ ev.removed, f.uri ≠ "file:///v")) ∧
      (3 ∈ (didChangeWorkspaceFolders ev s0).stopped ∧
        lookupKey "file:///w" (didChangeWorkspaceFolders ev s0).workspaceClients = none) ∧
      (didChangeWorkspaceFolders ev s0).fileClients = s0.fileClients ∧
      lookupKey "file:///v" (didChangeWorkspaceFolders ev s0).workspaceClients =
        lookupKey "file:///v" s0.workspaceClients) :=
  ⟨⟨by decide, by decide, by decide⟩,
    (c7_folder_removal_frame ⟨[⟨"file:///new"⟩], [⟨"file:///w"⟩]⟩
      { initState with
          workspaceClients := [("file:///w", 3), ("file:///v", 4)]
          fileClients := [("file:///u.gr", 7)] }).1
      ⟨"file:///w"⟩ (by decide) 3 (by decide),
    (c7_folder_removal_frame ⟨[⟨"file:///new"⟩], [⟨"file:///w"⟩]⟩
      { initState with
          workspaceClients := [("file:///w", 3), ("file:///v", 4)]
          fileClients := [("file:///u.gr", 7)] }).2.2.2.1,
    (c7_folder_removal_frame ⟨[⟨"file:///new"⟩], [⟨"file:///w"⟩]⟩
      { initState with
          workspaceClients := [("file:///w", 3), ("file:///v", 4)]
          fileClients := [("file:///u.gr", 7)] }).2.2.2.2
      "file:///v" (by decide)⟩

/-! ### Outermost workspace folder (C8) -/

lemma jsStartsWith_iff (s pre : String) : jsStartsWith s pre = true ↔ pre.data <+: s.data := by
  simp [jsStartsWith, List.isPrefixOf_iff_prefix]

lemma jsStartsWith_refl (s : String) : jsStartsWith s s = true :=
  (jsStartsWith_iff s s).mpr (List.prefix_refl _)

lemma dirpath_endsWith_slash (u : String) : jsEndsWith (dirpathFromUri u) "/" = true := by
  unfold dirpathFromUri
  by_cases h : jsEndsWith u "/" = true
  · rw [if_pos h]
    exact h
  · rw [if_neg h]
    rw [jsEndsWith, String.data_append]
    exact List.isSuffixOf_iff_suffix.mpr (List.suffix_append _ _)

lemma dirpath_of_slash (u : String) (h : jsEndsWith u "/" = true) : dirpathFromUri u = u := by
  simp [dirpathFromUri, h]

lemma pickDeepest_cons_isSome (f : WorkspaceFolder) (rest : List WorkspaceFolder) :
    (pickDeepest (f :: rest)).isSome := by
  simp only [pickDeepest]
  cases pickDeepest rest with
  | none => rfl
  | some b =>
    dsimp only
    by_cases h : jsLength (dirpathFromUri b.uri) ≤ jsLength (dirpathFromUri f.uri)
    · rw [if_pos h]
      rfl
    · rw [if_neg h]
      rfl

lemma pickDeepest_mem (l : List WorkspaceFolder) :
    ∀ g : WorkspaceFolder, pickDeepest l = some g → g ∈ l := by
  induction l with
  | nil =>
    intro g h
    cases h
  | cons f rest ih =>
    intro g h
    simp only [pickDeepest] at h
    cases hr : pickDeepest rest with
    | none =>
      rw [hr] at h
      injection h with h
      exact h ▸ List.mem_cons_self _ _
    | some b =>
      rw [hr] at h
      dsimp only at h
      by_cases hle : jsLength (dirpathFromUri b.uri) ≤ jsLength (dirpathFromUri f.uri)
      · rw [if_pos hle] at h
        injection h with h
        exact h ▸ List.mem_cons_self _ _
      · rw [if_neg hle] at h
        injection h with h
        subst h
        exact List.mem_cons_of_mem _ (ih b hr)

lemma pickDeepest_max (l : List WorkspaceFolder) :
    ∀ g : WorkspaceFolder, pickDeepest l = some g →
      ∀ f ∈ l, jsLength (dirpathFromUri f.uri) ≤ jsLength (dirpathFromUri g.uri) := by
  induction l with
  | nil =>
    intro g h
    cases h
  | cons f rest ih =>
    intro g h
    simp only [pickDeepest] at h
    cases hr : pickDeepest rest with
    | none =>
      rw [hr] at h
      injection h with h
      subst h
      intro x hx
      rcases List.mem_cons.mp hx with rfl | hxr
      · exact Nat.le_refl _
      · cases rest with
        | nil => cases hxr
        | cons y ys =>
          have hsome := pickDeepest_cons_isSome y ys
          rw [hr] at hsome
          cases hsome
    | some b =>
      rw [hr] at h
      dsimp only at h
      by_cases hle : jsLength (dirpathFromUri b.uri) ≤ jsLength (dirpathFromUri f.uri)
      · rw [if_pos hle] at h
        injection h with h
        subst h
        intro x hx
        rcases List.mem_cons.mp hx with rfl | hxr
        · exact Nat.le_refl _
        · exact Nat.le_trans (ih b hr x hxr) hle
      · rw [if_neg hle] at h
        injection h with h
        subst h
        intro x hx
        rcases List.mem_cons.mp hx with rfl | hxr
        · exact Nat.le_of_not_le hle
        · exact ih b hr x hxr

lemma getWorkspaceFolderHost_spec (folders : List WorkspaceFolder) (e : String)
    (f0 : WorkspaceFolder) (hf0 : f0 ∈ folders) (hf0e : dirpathFromUri f0.uri = e) :
    ∃ G, getWorkspaceFolderHost folders e = some G ∧ G ∈ folders ∧
      (dirpathFromUri G.uri).data = e.data := by
  have hslash : jsEndsWith e "/" = true := by
    rw [← hf0e]
    exact dirpath_endsWith_slash f0.uri
  have hdd : dirpathFromUri e = e := dirpath_of_slash e hslash
  have hf0c : f0 ∈ folders.filter
      (fun f => jsStartsWith (dirpathFromUri e) (dirpathFromUri f.uri)) := by
    apply List.mem_filter.mpr
    refine ⟨hf0, ?_⟩
    show jsStartsWith (dirpathFromUri e) (dirpathFromUri f0.uri) = true
    rw [hdd, hf0e]
    exact jsStartsWith_refl e
  obtain ⟨G, hG⟩ : ∃ G, pickDeepest (folders.filter
      (fun f => jsStartsWith (dirpathFromUri e) (dirpathFromUri f.uri))) = some G := by
    cases hcs : folders.filter
        (fun f => jsStartsWith (dirpathFromUri e) (dirpathFromUri f.uri)) with
    | nil =>
      rw [hcs] at hf0c
      cases hf0c
    | cons x xs =>
      have hsome := pickDeepest_cons_isSome x xs
      exact Option.isSome_iff_exists.mp hsome
  have hGmem := pickDeepest_mem _ G hG
  have hGf := List.mem_filter.mp hGmem
  have hGpref : (dirpathFromUri G.uri).data <+: e.data := by
    have h2 := hGf.2
    rw [hdd] at h2
    exact (jsStartsWith_iff _ _).mp h2
  have hmax := pickDeepest_max _ G hG f0 hf0c
  have hlen : e.data.length ≤ (dirpathFromUri G.uri).data.length := by
    have hh : jsLength e ≤ jsLength (dirpathFromUri G.uri) := by
      rw [← hf0e]
      exact hmax
    exact hh
  exact ⟨G, hG, hGf.1, List.Sublist.eq_of_length_le hGpref.sublist hlen⟩

lemma outerScan_finds (folders : List WorkspaceFolder) (F : WorkspaceFolder) :
    ∀ l : List String,
      List.Sorted (fun a b => jsLength a ≤ jsLength b) l →
      (∃ e ∈ l, jsStartsWith (dirpathFromUri F.uri) e = true) →
      ∃ e ∈ l, jsStartsWith (dirpathFromUri F.uri) e = true ∧
        (∀ e2 ∈ l, jsStartsWith (dirpathFromUri F.uri) e2 = true → jsLength e ≤ jsLength e2) ∧
        outerScan folders F l = getWorkspaceFolderHost folders e := by
  intro l
  induction l with
  | nil =>
    intro _ hex
    obtain ⟨e, he, _⟩ := hex
    cases he
  | cons e rest ih =>
    intro hsorted hex
    obtain ⟨hhead, htail⟩ := List.sorted_cons.mp hsorted
    by_cases hm : jsStartsWith (dirpathFromUri F.uri) e = true
    · refine ⟨e, List.mem_cons_self _ _, hm, ?_, ?_⟩
      · intro e2 he2 hm2
        rcases List.mem_cons.mp he2 with rfl | hr
        · exact Nat.le_refl _
        · exact hhead e2 hr
      · simp only [outerScan]
        rw [if_pos hm]
    · have hex2 : ∃ e2 ∈ rest, jsStartsWith (dirpathFromUri F.uri) e2 = true := by
        obtain ⟨e2, he2, hm2⟩ := hex
        rcases List.mem_cons.mp he2 with rfl | hr
        · exact absurd hm2 hm
        · exact ⟨e2, hr, hm2⟩
      obtain ⟨e2, he2, hm2, hmin, hscan⟩ := ih htail hex2
      refine ⟨e2, List.mem_cons_of_mem _ he2, hm2, ?_, ?_⟩
      · intro e3 he3 hm3
        rcases List.mem_cons.mp he3 with rfl | hr
        · exact absurd hm3 hm
        · exact hmin e3 hr hm3
      · simp only [outerScan]
        rw [if_neg hm]
        exact hscan

/-- C8: for every current workspace folder `F`,
`getOuterMostWorkspaceFolder` (run with a fresh cache) returns a
workspace folder whose directory path is a prefix of `F`'s directory
path and is shortest among the directory paths of all current
workspace folders that are such prefixes — so a document inside nested
workspace folders is keyed to the outermost enclosing folder. -/
theorem c8_outermost_folder (folders : List WorkspaceFolder) (F : WorkspaceFolder)
    (hF : F ∈ folders) :
    ∃ G, getOuterMostWorkspaceFolder [] folders F = some G ∧
      jsStartsWith (dirpathFromUri F.uri) (dirpathFromUri G.uri) = true ∧
      ∀ H ∈ folders, jsStartsWith (dirpathFromUri F.uri) (dirpathFromUri H.uri) = true →
        jsLength (dirpathFromUri G.uri) ≤ jsLength (dirpathFromUri H.uri) := by
  haveI hTot : IsTotal String (fun a b => jsLength a ≤ jsLength b) :=
    ⟨fun a b => Nat.le_total _ _⟩
  haveI hTrans : IsTrans String (fun a b => jsLength a ≤ jsLength b) :=
    ⟨fun a b c hab hbc => Nat.le_trans hab hbc⟩
  have hsorted : List.Sorted (fun a b => jsLength a ≤ jsLength b)
      (List.insertionSort (fun a b => jsLength a ≤ jsLength b)
        (folders.map (fun f => dirpathFromUri f.uri))) :=
    List.sorted_insertionSort _ _
  have hperm : List.Perm
      (List.insertionSort (fun a b => jsLength a ≤ jsLength b)
        (folders.map (fun f => dirpathFromUri f.uri)))
      (folders.map (fun f => dirpathFromUri f.uri)) :=
    List.perm_insertionSort _ _
  have hDmem : dirpathFromUri F.uri ∈
      List.insertionSort (fun a b => jsLength a ≤ jsLength b)
        (folders.map (fun f => dirpathFromUri f.uri)) :=
    hperm.mem_iff.mpr (List.mem_map_of_mem _ hF)
  obtain ⟨e, hel, hem, hmin, hscan⟩ :=
    outerScan_finds folders F
      (List.insertionSort (fun a b => jsLength a ≤ jsLength b)
        (folders.map (fun f => dirpathFromUri f.uri)))
      hsorted ⟨_, hDmem, jsStartsWith_refl _⟩
  have hedp : e ∈ folders.map (fun f => dirpathFromUri f.uri) := hperm.mem_iff.mp hel
  obtain ⟨f0, hf0, hf0e⟩ := List.mem_map.mp hedp
  obtain ⟨G, hGhost, hGmem, hGdata⟩ := getWorkspaceFolderHost_spec folders e f0 hf0 hf0e
  refine ⟨G, ?_, ?_, ?_⟩
  · show outerScan folders F (sortWorkspaceFolders [] (some folders)) = some G
    have hsortEq : sortWorkspaceFolders [] (some folders)
        = List.insertionSort (fun a b => jsLength a ≤ jsLength b)
            (folders.map (fun f => dirpathFromUri f.uri)) := rfl
    rw [hsortEq, hscan]
    exact hGhost
  · apply (jsStartsWith_iff _ _).mpr
    rw [hGdata]
    exact (jsStartsWith_iff _ _).mp hem
  · intro H hH hHm
    have hHdp : dirpathFromUri H.uri ∈
        List.insertionSort (fun a b => jsLength a ≤ jsLength b)
          (folders.map (fun f => dirpathFromUri f.uri)) :=
      hperm.mem_iff.mpr (List.mem_map_of_mem _ hH)
    have hle := hmin (dirpathFromUri H.uri) hHdp hHm
    have hlenG : jsLength (dirpathFromUri G.uri) = jsLength e := by
      show (dirpathFromUri G.uri).data.length = e.data.length
      rw [hGdata]
    rw [hlenG]
    exact hle

theorem c8_witness :
    ((⟨"file:///a/b"⟩ : WorkspaceFolder) ∈
      [(⟨"file:///a"⟩ : WorkspaceFolder), ⟨"file:///a/b"⟩]) ∧
    (∃ G, getOuterMostWorkspaceFolder []
        [(⟨"file:///a"⟩ : WorkspaceFolder), ⟨"file:///a/b"⟩] ⟨"file:///a/b"⟩ = some G ∧
      jsStartsWith (dirpathFromUri "file:///a/b") (dirpathFromUri G.uri) = true ∧
      ∀ H ∈ [(⟨"file:///a"⟩ : WorkspaceFolder), ⟨"file:///a/b"⟩],
        jsStartsWith (dirpathFromUri "file:///a/b") (dirpathFromUri H.uri) = true →
        jsLength (dirpathFromUri G.uri) ≤ jsLength (dirpathFromUri H.uri)) :=
  ⟨by decide,
    c8_outermost_folder [⟨"file:///a"⟩, ⟨"file:///a/b"⟩] ⟨"file:///a/b"⟩ (by decide)⟩

end GrainExtension
